import Mathlib

/-!
Shallow embedding of the `semver up` yarn-plugin command (the update-planning
pipeline of `SemverUpCommand`): configuration parsing, rule bucketing,
update-candidate resolution, cap-enforced update application and changeset
construction.  External collaborators (glob matcher, registry resolver,
semver utilities, `structUtils.parseRange`) are modelled at their interface
boundary; every pipeline function is translated statement by statement from
the source.
-/

namespace SemverUp

/-- A cap value from the config: a JS `number | false`.  `unbounded` is the
JS literal `false` ("do not impose a limit"). -/
inductive Cap where
  | num (n : Nat)
  | unbounded
deriving DecidableEq, Repr

/-- Per-rule configuration (`RuleConfig` in the source). -/
structure RuleConfig where
  maxPackageUpdates : Cap
  preserveSemVerRange : Bool
deriving DecidableEq, Repr

/-- Whole-run configuration (`Config` in the source). -/
structure Config where
  rules : List (String × RuleConfig)
  maxRulesApplied : Cap
  skipManifestOnlyChanges : Bool
deriving DecidableEq, Repr

/-- `ruleConfigDefaults` from the source. -/
def ruleConfigDefaults : RuleConfig :=
  { maxPackageUpdates := Cap.unbounded, preserveSemVerRange := true }

/-- A yarn `Descriptor`: a package ident bound to a range expression.
`ident` is the stringified ident (`structUtils.stringifyIdent` of
`structUtils.convertToIdent` of the descriptor); `identHash` is the ident's
stable hash key; `descriptorHash` keys the resolution store. -/
structure Descriptor where
  identHash : Nat
  ident : String
  range : String
  descriptorHash : Nat
deriving DecidableEq, Repr

/-- Result of `structUtils.parseRange`: a range string split into an optional
protocol prefix (colon included) and the remaining selector. -/
structure ParsedRange where
  protocol : Option String
  selector : String
deriving DecidableEq, Repr

/-- Splits a character list at the first colon, when one exists. -/
def splitAtColon : List Char → Option (List Char × List Char)
  | [] => none
  | c :: rest =>
    if c = ':' then some ([], rest)
    else
      match splitAtColon rest with
      | some (p, s) => some (c :: p, s)
      | none => none

/-- Models the collaborator `structUtils.parseRange` at its interface
boundary: a range string with a `proto:` prefix yields that protocol (colon
included) and the rest as selector; a range with no colon has no protocol
and is its own selector. -/
def parseRange (range : String) : ParsedRange :=
  match splitAtColon range.data with
  | some (p, s) => { protocol := some (String.mk (p ++ [':'])), selector := String.mk s }
  | none => { protocol := none, selector := range }

/-- One entry of the changeset (`ChangesetRecord` in the source). -/
structure ChangesetRecord where
  fromRange : String
  toRange : String
  fromVersion : Option String
  toVersion : String
  updateType : Option String
deriving DecidableEq, Repr

/-- A JS `Map` as an insertion-ordered association list. -/
abbrev Changeset := List (String × ChangesetRecord)

/-- JS `Map.get` on an entry list where later entries for a key overwrite
earlier ones (the semantics of `new Map(entries)` followed by `get`). -/
def jsGet {κ α : Type} [DecidableEq κ] (l : List (κ × α)) (k : κ) : Option α :=
  l.foldl (fun acc p => if p.1 = k then some p.2 else acc) none

/-- JS `Map.set`: overwrite in place when the key is present, append
otherwise. -/
def mapSet {κ α : Type} [DecidableEq κ] (m : List (κ × α)) (k : κ) (v : α) :
    List (κ × α) :=
  if m.any (fun p => decide (p.1 = k)) then
    m.map (fun p => if p.1 = k then (k, v) else p)
  else m ++ [(k, v)]

/-- JS `Set.add` on an insertion-ordered list of naturals. -/
def setAdd (l : List Nat) (x : Nat) : List Nat :=
  if x ∈ l then l else l ++ [x]

/-- The project's resolution store (collaborator: `storedResolutions`
descriptorHash → locatorHash, `storedPackages` locatorHash → version). -/
structure Project where
  storedResolutions : Nat → Option Nat
  storedPackages : Nat → Option String

/-- `Project.forgetResolution`: invalidate the cached resolution of a
descriptor. -/
def forgetResolution (p : Project) (d : Descriptor) : Project :=
  { p with storedResolutions :=
      fun h => if h = d.descriptorHash then none else p.storedResolutions h }

/-- The workspace manifest's two dependency scopes, each an
insertion-ordered map identHash → descriptor. -/
structure Manifest where
  dependencies : List (Nat × Descriptor)
  devDependencies : List (Nat × Descriptor)
deriving DecidableEq, Repr

/-- `manifest.getForScope(key).has(h)` followed by `.set(h, d)` for each of
the two scope keys, as in the source's scope loop. -/
def updateManifestScopes (m : Manifest) (h : Nat) (d : Descriptor) : Manifest :=
  let m1 :=
    if m.dependencies.any (fun p => decide (p.1 = h)) then
      { m with dependencies := mapSet m.dependencies h d }
    else m
  if m1.devDependencies.any (fun p => decide (p.1 = h)) then
    { m1 with devDependencies := mapSet m1.devDependencies h d }
  else m1

/-- The top-level workspace: its manifest, its bound dependency map
(`workspace.dependencies`) and its project. -/
structure Workspace where
  manifest : Manifest
  dependencies : List (Nat × Descriptor)
  project : Project

/-- External capabilities consumed by the pipeline, modelled at the
interface boundary of spec §6: the glob matcher (`micromatch`), the
configured default protocol, the registry resolver
(`suggestUtils.fetchDescriptorFrom`, keyed by stringified ident and target
range), semver's `minVersion` (loose) and semver's `diff` (`none` models a
throw). -/
structure Env where
  matcher : String → String → Bool
  defaultProtocol : String
  fetchDescriptorFrom : String → String → Option Descriptor
  minVersion : String → Option String
  semverDiff : String → String → Option String

/-- `getInstalledVersion` from the source: declared descriptor → resolved
locator → installed package version. -/
def getInstalledVersion (descriptorHash : Nat) (project : Project) : Option String :=
  match project.storedResolutions descriptorHash with
  | some locatorHash =>
    match project.storedPackages locatorHash with
    | some version => some version
    | none => none
  | none => none

/-- `extractVersionFromRange` from the source: semver `minVersion` of the
range when it parses, the raw range text otherwise. -/
def extractVersionFromRange (env : Env) (range : String) : String :=
  match env.minVersion range with
  | some v => v
  | none => range

/-- `getUpdateType` from the source: `null` when either endpoint is falsy,
otherwise semver `diff` (with a thrown error mapped to `null`). -/
def getUpdateType (env : Env) (fromVersion toVersion : Option String) : Option String :=
  match fromVersion, toVersion with
  | some f, some t => if f = "" ∨ t = "" then none else env.semverDiff f t
  | _, _ => none

/-- The JS truthiness-guarded cap test `cap && count >= cap` that guards
both `break` statements in `applyUpdates`: `false` and `0` are falsy. -/
def capReached (c : Cap) (count : Nat) : Bool :=
  match c with
  | Cap.num n => (n != 0) && Nat.ble n count
  | Cap.unbounded => false

/-- One rule bucket of `RulesWithPackages`. -/
structure Bucket where
  glob : String
  rule : RuleConfig
  packages : List Nat
deriving DecidableEq, Repr

/-- The `ruleBuckets.find(...)` + `packages.add` body of
`getRulesWithPackages`: add the ident hash to the first bucket whose glob
matches the stringified ident. -/
def placeDep (matcher : String → String → Bool) (ident : String) (h : Nat) :
    List Bucket → List Bucket
  | [] => []
  | b :: bs =>
    if matcher ident b.glob then
      { b with packages := setAdd b.packages h } :: bs
    else b :: placeDep matcher ident h bs

/-- `getRulesWithPackages` from the source: one empty bucket per configured
rule in order, then every declared dependency (dependencies before
devDependencies) is placed in the first bucket whose glob matches. -/
def getRulesWithPackages (matcher : String → String → Bool) (config : Config)
    (manifest : Manifest) : List Bucket :=
  (manifest.dependencies ++ manifest.devDependencies).foldl
    (fun bs p => placeDep matcher p.2.ident p.1 bs)
    (config.rules.map (fun r => { glob := r.1, rule := r.2, packages := [] }))

/-- The `isSemverProtocol` eligibility test of `findUpdateCandidates`. -/
def isSemverProtocol (defaultProtocol : String) (pr : ParsedRange) : Bool :=
  (decide (pr.protocol = none) && decide (defaultProtocol = "npm:"))
    || decide (pr.protocol = some "npm:")

/-- The per-bucket inner loop of `findUpdateCandidates`: for each bucketed
package, look up its current descriptor, require the plain registry
protocol, query the resolver (inside the existing range when
`preserveSemVerRange`, else `latest`), and record a candidate only when the
returned range differs from the current one. -/
def findGroupUpdates (env : Env) (descriptors : List (Nat × Descriptor))
    (rule : RuleConfig) (packages : List Nat) : List (Nat × Descriptor) :=
  packages.foldl
    (fun updates pkg =>
      match jsGet descriptors pkg with
      | none => updates
      | some oldDescriptor =>
        if isSemverProtocol env.defaultProtocol (parseRange oldDescriptor.range) then
          match env.fetchDescriptorFrom oldDescriptor.ident
              (if rule.preserveSemVerRange then oldDescriptor.range else "latest") with
          | some newDescriptor =>
            if oldDescriptor.range ≠ newDescriptor.range then
              mapSet updates oldDescriptor.identHash newDescriptor
            else updates
          | none => updates
        else updates)
    []

/-- `findUpdateCandidates` from the source: the manifest's two scopes merged
into one descriptor map, then one candidate group per bucket, omitting
groups with zero candidates. -/
def findUpdateCandidates (env : Env) (ws : Workspace) (buckets : List Bucket) :
    List (String × List (Nat × Descriptor)) :=
  buckets.foldl
    (fun groups b =>
      if findGroupUpdates env (ws.manifest.dependencies ++ ws.manifest.devDependencies)
          b.rule b.packages ≠ [] then
        mapSet groups b.glob
          (findGroupUpdates env (ws.manifest.dependencies ++ ws.manifest.devDependencies)
            b.rule b.packages)
      else groups)
    []

/-- The per-candidate `fromRange`/`toRange`/`fromVersion`/`toVersion`/
`updateType` computation of the `applyUpdates` loop body. -/
def mkChangesetRecord (env : Env) (oldBoundDescriptor descriptor : Descriptor)
    (project : Project) : ChangesetRecord :=
  { fromRange := (parseRange oldBoundDescriptor.range).selector
    toRange := (parseRange descriptor.range).selector
    fromVersion := getInstalledVersion oldBoundDescriptor.descriptorHash project
    toVersion := extractVersionFromRange env (parseRange descriptor.range).selector
    updateType := getUpdateType env
      (getInstalledVersion oldBoundDescriptor.descriptorHash project)
      (some (extractVersionFromRange env (parseRange descriptor.range).selector)) }

/-- The `fromVersion === toVersion` test of the `applyUpdates` loop body. -/
def isManifestOnlyChange (env : Env) (oldBoundDescriptor descriptor : Descriptor)
    (project : Project) : Bool :=
  decide (getInstalledVersion oldBoundDescriptor.descriptorHash project
    = some (extractVersionFromRange env (parseRange descriptor.range).selector))

/-- The mutation part of one applied update: insert the changeset entry,
rewrite the manifest scopes, and (unless dry-run) forget the old cached
resolution. -/
def applyOneUpdate (env : Env) (dryRun : Bool) (identHash : Nat)
    (descriptor oldBoundDescriptor : Descriptor) (cs : Changeset) (ws : Workspace) :
    Changeset × Workspace :=
  (mapSet cs descriptor.ident (mkChangesetRecord env oldBoundDescriptor descriptor ws.project),
    let ws1 := { ws with manifest := updateManifestScopes ws.manifest identHash descriptor }
    if dryRun then ws1
    else { ws1 with project := forgetResolution ws1.project oldBoundDescriptor })

/-- The inner (per-group) loop of `applyUpdates`: walks a group's candidate
entries, breaking once the rule's package cap is truthily reached, skipping
candidates with no bound descriptor, skipping manifest-only changes when
configured, and otherwise recording a changeset entry, mutating the manifest
scopes and (unless dry-run) forgetting the old resolution. -/
def applyUpdatesInner (env : Env) (dryRun skipManifestOnlyChanges : Bool) (cap : Cap) :
    List (Nat × Descriptor) → Changeset → Workspace → Nat →
      Changeset × Workspace × Nat
  | [], cs, ws, count => (cs, ws, count)
  | (identHash, descriptor) :: rest, cs, ws, count =>
    if capReached cap count then (cs, ws, count)
    else
      match jsGet ws.dependencies identHash with
      | none => applyUpdatesInner env dryRun skipManifestOnlyChanges cap rest cs ws count
      | some oldBoundDescriptor =>
        if isManifestOnlyChange env oldBoundDescriptor descriptor ws.project
            && skipManifestOnlyChanges then
          applyUpdatesInner env dryRun skipManifestOnlyChanges cap rest cs ws count
        else
          applyUpdatesInner env dryRun skipManifestOnlyChanges cap rest
            (applyOneUpdate env dryRun identHash descriptor oldBoundDescriptor cs ws).1
            (applyOneUpdate env dryRun identHash descriptor oldBoundDescriptor cs ws).2
            (count + 1)

/-- The outer (per-group) loop of `applyUpdates`: groups in candidate-map
order, skipping groups whose glob has no rule, breaking once the global rule
cap is truthily reached, and counting a group only when it applied at least
one update. -/
def applyUpdatesLoop (env : Env) (dryRun : Bool) (config : Config) :
    List (String × List (Nat × Descriptor)) → Changeset → Workspace → Nat →
      Changeset × Workspace × Nat
  | [], cs, ws, count => (cs, ws, count)
  | (ruleGlob, updates) :: rest, cs, ws, count =>
    match jsGet config.rules ruleGlob with
    | none => applyUpdatesLoop env dryRun config rest cs ws count
    | some rule =>
      if capReached config.maxRulesApplied count then (cs, ws, count)
      else
        applyUpdatesLoop env dryRun config rest
          (applyUpdatesInner env dryRun config.skipManifestOnlyChanges
            rule.maxPackageUpdates updates cs ws 0).1
          (applyUpdatesInner env dryRun config.skipManifestOnlyChanges
            rule.maxPackageUpdates updates cs ws 0).2.1
          (if (applyUpdatesInner env dryRun config.skipManifestOnlyChanges
              rule.maxPackageUpdates updates cs ws 0).2.2 != 0 then count + 1 else count)

/-- `applyUpdates` from the source: the two nested cap-enforcing loops,
started from an empty changeset and a zero applied-rules counter. -/
def applyUpdates (env : Env) (dryRun : Bool) (config : Config)
    (rulesWithUpdates : List (String × List (Nat × Descriptor)))
    (ws : Workspace) : Changeset × Workspace :=
  ((applyUpdatesLoop env dryRun config rulesWithUpdates [] ws 0).1,
   (applyUpdatesLoop env dryRun config rulesWithUpdates [] ws 0).2.1)

/-- A rule entry as it may appear in the raw config file: both fields
optional (JS object spread semantics). -/
structure PartialRuleConfig where
  maxPackageUpdates : Option Cap
  preserveSemVerRange : Option Bool
deriving DecidableEq, Repr

/-- The raw structure loaded from the config file. -/
structure RawConfig where
  rules : Option (List (String × PartialRuleConfig))
  maxRulesApplied : Option Cap
  skipManifestOnlyChanges : Option Bool
deriving DecidableEq, Repr

/-- `parseConfigFile` from the source: `configFromFile = none` models the
`dynamicRequire` throw (falling back to the catch-all `*` rule); per-rule
merge is `{ ...defaults, preserveSemVerRange: cliFlag, ...rule }`; CLI rule
globs, when present, replace the rules entirely and force
`maxRulesApplied = false`. -/
def parseConfigFile (configFromFile : Option RawConfig)
    (preserveSemVerRange : Bool) (ruleGlobs : List String) : Config :=
  let raw : RawConfig :=
    match configFromFile with
    | some c => c
    | none =>
      { rules := some [("*", { maxPackageUpdates := none, preserveSemVerRange := none })],
        maxRulesApplied := none, skipManifestOnlyChanges := none }
  let rulesFromFile := raw.rules.getD []
  let config : Config :=
    { rules := rulesFromFile.map (fun r =>
        (r.1,
          { maxPackageUpdates :=
              r.2.maxPackageUpdates.getD ruleConfigDefaults.maxPackageUpdates,
            preserveSemVerRange :=
              r.2.preserveSemVerRange.getD preserveSemVerRange })),
      maxRulesApplied := raw.maxRulesApplied.getD (Cap.num 1),
      skipManifestOnlyChanges := raw.skipManifestOnlyChanges.getD false }
  if ruleGlobs ≠ [] then
    { config with
      rules := ruleGlobs.map (fun g =>
        (g, { maxPackageUpdates := ruleConfigDefaults.maxPackageUpdates,
              preserveSemVerRange := preserveSemVerRange })),
      maxRulesApplied := Cap.unbounded }
  else config

/-- One serialized changeset entry (`changesetData` values in
`writeChangeset`), with `release_notes` always null. -/
structure ChangesetData where
  fromVersionField : Option String
  fromRangeField : String
  toVersionField : String
  toRangeField : String
  updateTypeField : Option String
  releaseNotesField : Option String
deriving DecidableEq, Repr

/-- A persisted or streamed output of `writeChangeset`. -/
inductive WriteEffect where
  | stdoutWrite (data : List (String × ChangesetData))
  | fileWrite (path : String) (data : List (String × ChangesetData))
deriving DecidableEq, Repr

/-- The serialization loop of `writeChangeset`. -/
def serializeChangeset (changeset : Changeset) : List (String × ChangesetData) :=
  changeset.map (fun p =>
    (p.1,
      { fromVersionField := p.2.fromVersion, fromRangeField := p.2.fromRange,
        toVersionField := p.2.toVersion, toRangeField := p.2.toRange,
        updateTypeField := p.2.updateType, releaseNotesField := none }))

/-- `writeChangeset` from the source: the guard
`if (!this.changesetFilename) return` is a JS falsy test, so both an absent
destination and the empty string write nothing; the `-` sentinel streams to
stdout; any other destination is a file write. -/
def writeChangeset (changesetFilename : Option String) (changeset : Changeset) :
    List WriteEffect :=
  match changesetFilename with
  | none => []
  | some fname =>
    if fname = "" then []
    else if fname = "-" then [WriteEffect.stdoutWrite (serializeChangeset changeset)]
    else [WriteEffect.fileWrite fname (serializeChangeset changeset)]

/-- The CLI options of the command that the pipeline consumes. -/
structure CmdOptions where
  changesetFilename : Option String
  dryRun : Bool
deriving DecidableEq, Repr

/-- The observable outcome of one `pipeline` run inside `execute`. -/
structure PipelineResult where
  changeset : Changeset
  workspace : Workspace
  writes : List WriteEffect
  installCalled : Bool

/-- The `pipeline` closure of `execute`: group, resolve, apply, write the
changeset, and trigger a reinstall unless `--dry-run`. -/
def runPipeline (env : Env) (opts : CmdOptions) (config : Config)
    (ws : Workspace) : PipelineResult :=
  { changeset := (applyUpdates env opts.dryRun config
      (findUpdateCandidates env ws (getRulesWithPackages env.matcher config ws.manifest))
      ws).1
    workspace := (applyUpdates env opts.dryRun config
      (findUpdateCandidates env ws (getRulesWithPackages env.matcher config ws.manifest))
      ws).2
    writes := writeChangeset opts.changesetFilename
      (applyUpdates env opts.dryRun config
        (findUpdateCandidates env ws (getRulesWithPackages env.matcher config ws.manifest))
        ws).1
    installCalled := !opts.dryRun }

/-- Index of the first glob in the list that matches the given stringified
ident — the `ruleBuckets.find` search order of `getRulesWithPackages`. -/
def firstMatchIdx (matcher : String → String → Bool) (ident : String) :
    List String → Option Nat
  | [] => none
  | g :: gs =>
    if matcher ident g then some 0
    else (firstMatchIdx matcher ident gs).map (· + 1)

/-- Replace a cap of `0` by the unbounded sentinel. -/
def normCap : Cap → Cap
  | Cap.num 0 => Cap.unbounded
  | c => c

/-- `normCap` applied to a rule's package cap. -/
def normRule (r : RuleConfig) : RuleConfig :=
  { r with maxPackageUpdates := normCap r.maxPackageUpdates }

/-- `normCap` applied to every cap of a config. -/
def normConfig (c : Config) : Config :=
  { c with
    maxRulesApplied := normCap c.maxRulesApplied,
    rules := c.rules.map (fun r => (r.1, normRule r.2)) }

/-- The package-hash list of the `j`-th rule bucket (empty when out of
range). -/
def bucketsPackages (bs : List Bucket) (j : Nat) : List Nat :=
  match bs[j]? with
  | some b => b.packages
  | none => []

/-- Test fixture: a dependency `a1` as declared in the manifest. -/
def cxDescA : Descriptor :=
  { identHash := 1, ident := "a1", range := "^1.0.0", descriptorHash := 11 }

/-- Test fixture: a resolved candidate for `a1`. -/
def cxDescA2 : Descriptor :=
  { identHash := 1, ident := "a1", range := "^1.1.0", descriptorHash := 12 }

/-- Test fixture: a dependency `b1` as declared in the manifest. -/
def cxDescB : Descriptor :=
  { identHash := 2, ident := "b1", range := "^1.0.0", descriptorHash := 21 }

/-- Test fixture: a resolved candidate for `b1`. -/
def cxDescB2 : Descriptor :=
  { identHash := 2, ident := "b1", range := "^1.2.0", descriptorHash := 22 }

/-- Test fixture: an environment with an empty resolver and no semver data. -/
def cxEnv : Env :=
  { matcher := fun _ _ => true
    defaultProtocol := "npm:"
    fetchDescriptorFrom := fun _ _ => none
    minVersion := fun _ => none
    semverDiff := fun _ _ => none }

/-- Test fixture: a project with an empty resolution store. -/
def cxProject : Project :=
  { storedResolutions := fun _ => none, storedPackages := fun _ => none }

/-- Test fixture: a workspace declaring `a1` and `b1`. -/
def cxWs : Workspace :=
  { manifest := { dependencies := [(1, cxDescA), (2, cxDescB)], devDependencies := [] }
    dependencies := [(1, cxDescA), (2, cxDescB)]
    project := cxProject }

/-- Test fixture: two rules with the global rule cap configured as `0`. -/
def cxConfigC1 : Config :=
  { rules := [("a*", ruleConfigDefaults), ("b*", ruleConfigDefaults)]
    maxRulesApplied := Cap.num 0
    skipManifestOnlyChanges := false }

/-- Test fixture: one candidate group per rule of `cxConfigC1`. -/
def cxGroups : List (String × List (Nat × Descriptor)) :=
  [("a*", [(1, cxDescA2)]), ("b*", [(2, cxDescB2)])]

/-- Test fixture: a rule whose package cap is configured as `0`. -/
def cxRuleC2 : RuleConfig :=
  { maxPackageUpdates := Cap.num 0, preserveSemVerRange := true }

/-- Test fixture: a config holding only `cxRuleC2`. -/
def cxConfigC2 : Config :=
  { rules := [("a*", cxRuleC2)], maxRulesApplied := Cap.unbounded
    skipManifestOnlyChanges := false }

/-- Test fixture: a dependency `pkg` declared with the protocol-free range
`^1.0.0`. -/
def cxPkgOld : Descriptor :=
  { identHash := 5, ident := "pkg", range := "^1.0.0", descriptorHash := 51 }

/-- Test fixture: a resolver answer for `pkg` whose full range string
`npm:^1.0.0` differs from the declared one only by the protocol prefix. -/
def cxPkgNew : Descriptor :=
  { identHash := 5, ident := "pkg", range := "npm:^1.0.0", descriptorHash := 52 }

/-- Test fixture: an environment whose resolver answers `cxPkgNew` for
`pkg` and whose semver `minVersion` knows `^1.0.0`. -/
def cxEnvC5 : Env :=
  { matcher := fun _ g => g == "*"
    defaultProtocol := "npm:"
    fetchDescriptorFrom := fun i _ => if i = "pkg" then some cxPkgNew else none
    minVersion := fun r => if r = "^1.0.0" then some "1.0.0" else none
    semverDiff := fun _ _ => none }

/-- Test fixture: a workspace declaring `pkg` with `1.0.0` installed. -/
def cxWsC5 : Workspace :=
  { manifest := { dependencies := [(5, cxPkgOld)], devDependencies := [] }
    dependencies := [(5, cxPkgOld)]
    project :=
      { storedResolutions := fun h => if h = 51 then some 61 else none
        storedPackages := fun l => if l = 61 then some "1.0.0" else none } }

/-- Test fixture: a single catch-all rule with the default rule config. -/
def cxConfigC5 : Config :=
  { rules := [("*", ruleConfigDefaults)], maxRulesApplied := Cap.num 1
    skipManifestOnlyChanges := false }

/-- Test fixture: the rule bucket produced for `cxConfigC5` over `cxWsC5`. -/
def cxBuckets : List Bucket :=
  [{ glob := "*", rule := ruleConfigDefaults, packages := [5] }]

/-- Test fixture: the candidate group for `pkg`. -/
def cxGroupsC5 : List (String × List (Nat × Descriptor)) :=
  [("*", [(5, cxPkgNew)])]

/-- Test fixture: the changeset record produced for `pkg`. -/
def cxRecord : ChangesetRecord :=
  { fromRange := "^1.0.0", toRange := "^1.0.0", fromVersion := some "1.0.0",
    toVersion := "1.0.0", updateType := none }

/-- Test fixture: dry-run CLI options with a named changeset destination. -/
def cxOptsW : CmdOptions :=
  { changesetFilename := some "changeset.json", dryRun := true }

theorem mem_mapSet {κ α : Type} [DecidableEq κ] {m : List (κ × α)} {k : κ} {v : α}
    {p : κ × α} (hp : p ∈ mapSet m k v) : p ∈ m ∨ p = (k, v) := by
  unfold mapSet at hp
  split at hp
  · rcases List.mem_map.mp hp with ⟨q, hq, hqe⟩
    by_cases h : q.1 = k
    · right
      rw [if_pos h] at hqe
      exact hqe.symm
    · left
      rw [if_neg h] at hqe
      exact hqe ▸ hq
  · rcases List.mem_append.mp hp with h | h
    · exact Or.inl h
    · right
      simpa using h

theorem self_mem_keys_mapSet {κ α : Type} [DecidableEq κ] (m : List (κ × α)) (k : κ) (v : α) :
    k ∈ (mapSet m k v).map Prod.fst := by
  unfold mapSet
  split
  · next h =>
    rcases List.any_eq_true.mp h with ⟨q, hq, hqk⟩
    have hqk1 : q.1 = k := of_decide_eq_true hqk
    refine List.mem_map.mpr ⟨(k, v), List.mem_map.mpr ⟨q, hq, ?_⟩, rfl⟩
    rw [if_pos hqk1]
  · simp

theorem keys_mapSet_sub {κ α : Type} [DecidableEq κ] {m : List (κ × α)} {k : κ} {v : α}
    {x : κ} (hx : x ∈ (mapSet m k v).map Prod.fst) : x ∈ m.map Prod.fst ∨ x = k := by
  rcases List.mem_map.mp hx with ⟨p, hp, rfl⟩
  rcases mem_mapSet hp with h | h
  · exact Or.inl (List.mem_map.mpr ⟨p, h, rfl⟩)
  · right
    rw [h]

theorem keys_sub_mapSet {κ α : Type} [DecidableEq κ] {m : List (κ × α)} (k : κ) (v : α)
    {x : κ} (hx : x ∈ m.map Prod.fst) : x ∈ (mapSet m k v).map Prod.fst := by
  rcases List.mem_map.mp hx with ⟨p, hp, rfl⟩
  unfold mapSet
  split
  · refine List.mem_map.mpr ⟨if p.1 = k then (k, v) else p, List.mem_map.mpr ⟨p, hp, rfl⟩, ?_⟩
    by_cases h : p.1 = k
    · rw [if_pos h]
      exact h.symm
    · rw [if_neg h]
  · exact List.mem_map.mpr ⟨p, List.mem_append_left _ hp, rfl⟩

theorem length_mapSet_le {κ α : Type} [DecidableEq κ] (m : List (κ × α)) (k : κ) (v : α) :
    (mapSet m k v).length ≤ m.length + 1 := by
  unfold mapSet
  split
  · simp
  · simp

theorem capReached_unbounded (n : Nat) : capReached Cap.unbounded n = false := rfl

theorem capReached_zero (c : Cap) : capReached c 0 = false := by
  cases c with
  | num n => cases n <;> simp [capReached, Nat.ble]
  | unbounded => rfl

theorem capReached_num_true {n count : Nat} :
    capReached (Cap.num n) count = true ↔ n ≠ 0 ∧ n ≤ count := by
  simp [capReached, Nat.ble_eq]

theorem capReached_normCap (c : Cap) (n : Nat) :
    capReached (normCap c) n = capReached c n := by
  cases c with
  | num m =>
    cases m with
    | zero => simp [normCap, capReached]
    | succ k => rfl
  | unbounded => rfl

theorem inner_break (env : Env) (dryRun skipM : Bool) (cap : Cap)
    (l : List (Nat × Descriptor)) (cs : Changeset) (ws : Workspace) (n : Nat)
    (h : capReached cap n = true) :
    applyUpdatesInner env dryRun skipM cap l cs ws n = (cs, ws, n) := by
  cases l with
  | nil => rfl
  | cons p rest =>
    obtain ⟨ph, pd⟩ := p
    simp [applyUpdatesInner, h]

theorem inner_count_le (env : Env) (dryRun skipM : Bool) (cap : Cap)
    (l : List (Nat × Descriptor)) :
    ∀ (cs : Changeset) (ws : Workspace) (n : Nat),
      n ≤ (applyUpdatesInner env dryRun skipM cap l cs ws n).2.2 := by
  induction l with
  | nil =>
    intro cs ws n
    exact Nat.le_refl n
  | cons p rest ih =>
    intro cs ws n
    obtain ⟨ph, pd⟩ := p
    simp only [applyUpdatesInner]
    split
    · exact Nat.le_refl n
    · split
      · exact ih cs ws n
      · split
        · exact ih cs ws n
        · exact Nat.le_trans (Nat.le_succ n) (ih _ _ _)

theorem inner_count_eq (env : Env) (dryRun skipM : Bool) (cap : Cap)
    (l : List (Nat × Descriptor)) :
    ∀ (cs : Changeset) (ws : Workspace) (n : Nat),
      (applyUpdatesInner env dryRun skipM cap l cs ws n).2.2 = n →
      applyUpdatesInner env dryRun skipM cap l cs ws n = (cs, ws, n) := by
  induction l with
  | nil =>
    intro cs ws n _
    rfl
  | cons p rest ih =>
    intro cs ws n h
    obtain ⟨ph, pd⟩ := p
    simp only [applyUpdatesInner] at h ⊢
    by_cases hc : capReached cap n = true
    · simp [hc]
    · rw [Bool.not_eq_true] at hc
      simp only [hc, Bool.false_eq_true, if_false] at h ⊢
      cases hj : jsGet ws.dependencies ph with
      | none =>
        simp only [hj] at h ⊢
        exact ih cs ws n h
      | some old =>
        simp only [hj] at h ⊢
        by_cases hs : (isManifestOnlyChange env old pd ws.project && skipM) = true
        · simp only [hs, if_true] at h ⊢
          exact ih cs ws n h
        · rw [Bool.not_eq_true] at hs
          simp only [hs, Bool.false_eq_true, if_false] at h ⊢
          have hge := inner_count_le env dryRun skipM cap rest
            (applyOneUpdate env dryRun ph pd old cs ws).1
            (applyOneUpdate env dryRun ph pd old cs ws).2 (n + 1)
          omega

theorem inner_keys_mono (env : Env) (dryRun skipM : Bool) (cap : Cap)
    (l : List (Nat × Descriptor)) :
    ∀ (cs : Changeset) (ws : Workspace) (n : Nat) (x : String),
      x ∈ cs.map Prod.fst →
      x ∈ (applyUpdatesInner env dryRun skipM cap l cs ws n).1.map Prod.fst := by
  induction l with
  | nil =>
    intro cs ws n x hx
    exact hx
  | cons p rest ih =>
    intro cs ws n x hx
    obtain ⟨ph, pd⟩ := p
    simp only [applyUpdatesInner]
    split
    · exact hx
    · split
      · exact ih cs ws n x hx
      · split
        · exact ih cs ws n x hx
        · exact ih _ _ _ x (keys_sub_mapSet _ _ hx)

theorem inner_keys_cover (env : Env) (dryRun skipM : Bool) (cap : Cap)
    (l : List (Nat × Descriptor)) :
    ∀ (cs : Changeset) (ws : Workspace) (n : Nat) (x : String),
      x ∈ (applyUpdatesInner env dryRun skipM cap l cs ws n).1.map Prod.fst →
      x ∈ cs.map Prod.fst ∨ x ∈ l.map (fun p => p.2.ident) := by
  induction l with
  | nil =>
    intro cs ws n x hx
    exact Or.inl hx
  | cons p rest ih =>
    intro cs ws n x hx
    obtain ⟨ph, pd⟩ := p
    simp only [applyUpdatesInner] at hx
    rw [List.map_cons]
    split at hx
    · exact Or.inl hx
    · split at hx
      · rcases ih cs ws n x hx with h | h
        · exact Or.inl h
        · exact Or.inr (List.mem_cons_of_mem _ h)
      · split at hx
        · rcases ih cs ws n x hx with h | h
          · exact Or.inl h
          · exact Or.inr (List.mem_cons_of_mem _ h)
        · rcases ih _ _ _ x hx with h | h
          · rcases keys_mapSet_sub h with h1 | h1
            · exact Or.inl h1
            · exact Or.inr (h1 ▸ List.mem_cons_self _ _)
          · exact Or.inr (List.mem_cons_of_mem _ h)

theorem inner_length (env : Env) (dryRun skipM : Bool) (cap : Cap)
    (l : List (Nat × Descriptor)) :
    ∀ (cs : Changeset) (ws : Workspace) (n : Nat),
      (applyUpdatesInner env dryRun skipM cap l cs ws n).1.length + n
        ≤ cs.length + (applyUpdatesInner env dryRun skipM cap l cs ws n).2.2 := by
  induction l with
  | nil =>
    intro cs ws n
    exact Nat.le_refl _
  | cons p rest ih =>
    intro cs ws n
    obtain ⟨ph, pd⟩ := p
    simp only [applyUpdatesInner]
    split
    · exact Nat.le_refl _
    · split
      · exact ih cs ws n
      · split
        · exact ih cs ws n
        · have h1 := ih (applyOneUpdate env dryRun ph pd ‹Descriptor› cs ws).1
            (applyOneUpdate env dryRun ph pd ‹Descriptor› cs ws).2 (n + 1)
          have h2 : (applyOneUpdate env dryRun ph pd ‹Descriptor› cs ws).1.length
              ≤ cs.length + 1 := length_mapSet_le _ _ _
          omega

theorem inner_cap_le (env : Env) (dryRun skipM : Bool) (M : Nat) (hM : M ≠ 0)
    (l : List (Nat × Descriptor)) :
    ∀ (cs : Changeset) (ws : Workspace) (n : Nat), n ≤ M →
      (applyUpdatesInner env dryRun skipM (Cap.num M) l cs ws n).2.2 ≤ M := by
  induction l with
  | nil =>
    intro cs ws n hn
    exact hn
  | cons p rest ih =>
    intro cs ws n hn
    obtain ⟨ph, pd⟩ := p
    simp only [applyUpdatesInner]
    by_cases hc : capReached (Cap.num M) n = true
    · simp only [hc, if_true]
      exact hn
    · rw [Bool.not_eq_true] at hc
      simp only [hc, Bool.false_eq_true, if_false]
      have hlt : n < M := by
        rcases Nat.lt_or_ge n M with h | h
        · exact h
        · exact absurd (capReached_num_true.mpr ⟨hM, h⟩) (by simp [hc])
      split
      · exact ih cs ws n hn
      · split
        · exact ih cs ws n hn
        · exact ih _ _ (n + 1) hlt

theorem inner_unbounded_eq (env : Env) (dryRun skipM : Bool)
    (l : List (Nat × Descriptor)) :
    ∀ (cs : Changeset) (ws : Workspace) (n K : Nat), n + l.length < K →
      applyUpdatesInner env dryRun skipM Cap.unbounded l cs ws n
        = applyUpdatesInner env dryRun skipM (Cap.num K) l cs ws n := by
  induction l with
  | nil =>
    intro cs ws n K _
    rfl
  | cons p rest ih =>
    intro cs ws n K hK
    obtain ⟨ph, pd⟩ := p
    have hcap : capReached (Cap.num K) n = false := by
      rw [Bool.eq_false_iff]
      intro h
      rcases capReached_num_true.mp h with ⟨_, hle⟩
      simp only [List.length_cons] at hK
      omega
    simp only [applyUpdatesInner, hcap, capReached_unbounded, Bool.false_eq_true, if_false]
    simp only [List.length_cons] at hK
    cases jsGet ws.dependencies ph with
    | none => exact ih cs ws n K (by omega)
    | some old =>
      simp only
      split
      · exact ih cs ws n K (by omega)
      · exact ih _ _ (n + 1) K (by omega)

theorem applyOneUpdate_project_dryRun (env : Env) (h : Nat) (d old : Descriptor)
    (cs : Changeset) (ws : Workspace) :
    (applyOneUpdate env true h d old cs ws).2.project = ws.project := rfl

theorem inner_project_dryRun (env : Env) (skipM : Bool) (cap : Cap)
    (l : List (Nat × Descriptor)) :
    ∀ (cs : Changeset) (ws : Workspace) (n : Nat),
      (applyUpdatesInner env true skipM cap l cs ws n).2.1.project = ws.project := by
  induction l with
  | nil =>
    intro cs ws n
    rfl
  | cons p rest ih =>
    intro cs ws n
    obtain ⟨ph, pd⟩ := p
    simp only [applyUpdatesInner]
    split
    · rfl
    · split
      · exact ih cs ws n
      · split
        · exact ih cs ws n
        · rw [ih _ _ _]
          exact applyOneUpdate_project_dryRun env ph pd ‹Descriptor› cs ws

theorem inner_records (env : Env) (dryRun skipM : Bool) (cap : Cap)
    (P : ChangesetRecord → Prop)
    (hmk : ∀ old d proj, P (mkChangesetRecord env old d proj))
    (l : List (Nat × Descriptor)) :
    ∀ (cs : Changeset) (ws : Workspace) (n : Nat), (∀ p ∈ cs, P p.2) →
      ∀ p ∈ (applyUpdatesInner env dryRun skipM cap l cs ws n).1, P p.2 := by
  induction l with
  | nil =>
    intro cs ws n hcs
    exact hcs
  | cons p rest ih =>
    intro cs ws n hcs
    obtain ⟨ph, pd⟩ := p
    simp only [applyUpdatesInner]
    split
    · exact hcs
    · split
      · exact ih cs ws n hcs
      · split
        · exact ih cs ws n hcs
        · refine ih _ _ _ ?_
          intro q hq
          rcases mem_mapSet hq with h | h
          · exact hcs q h
          · rw [h]
            exact hmk _ _ _

theorem loop_cover (env : Env) (dryRun : Bool) (config : Config) (N : Nat)
    (hN : config.maxRulesApplied = Cap.num N) (hN0 : N ≠ 0)
    (groups : List (String × List (Nat × Descriptor))) :
    ∀ (cs : Changeset) (ws : Workspace) (n : Nat), n ≤ N →
      ∃ S : List (String × List (Nat × Descriptor)),
        List.Sublist S groups ∧
        S.length + n = (applyUpdatesLoop env dryRun config groups cs ws n).2.2 ∧
        (applyUpdatesLoop env dryRun config groups cs ws n).2.2 ≤ N ∧
        ∀ x ∈ (applyUpdatesLoop env dryRun config groups cs ws n).1.map Prod.fst,
          x ∈ cs.map Prod.fst ∨ ∃ g ∈ S, x ∈ g.2.map (fun p => p.2.ident) := by
  induction groups with
  | nil =>
    intro cs ws n hn
    exact ⟨[], List.nil_sublist _, Nat.zero_add n, hn, fun x hx => Or.inl hx⟩
  | cons p rest ih =>
    intro cs ws n hn
    obtain ⟨glob, updates⟩ := p
    simp only [applyUpdatesLoop]
    cases hr : jsGet config.rules glob with
    | none =>
      rcases ih cs ws n hn with ⟨S, hsub, hlen, hle, hcov⟩
      exact ⟨S, List.Sublist.cons _ hsub, hlen, hle, hcov⟩
    | some rule =>
      by_cases hc : capReached config.maxRulesApplied n = true
      · simp only [hc, if_true]
        exact ⟨[], List.nil_sublist _, Nat.zero_add n, hn, fun x hx => Or.inl hx⟩
      · rw [Bool.not_eq_true] at hc
        simp only [hc, Bool.false_eq_true, if_false]
        have hlt : n < N := by
          rcases Nat.lt_or_ge n N with h | h
          · exact h
          · rw [hN] at hc
            exact absurd (capReached_num_true.mpr ⟨hN0, h⟩) (by simp [hc])
        by_cases hz : (applyUpdatesInner env dryRun config.skipManifestOnlyChanges
            rule.maxPackageUpdates updates cs ws 0).2.2 = 0
        · have heq := inner_count_eq env dryRun config.skipManifestOnlyChanges
            rule.maxPackageUpdates updates cs ws 0 hz
          simp only [heq, bne_self_eq_false, Bool.false_eq_true, if_false]
          rcases ih cs ws n hn with ⟨S, hsub, hlen, hle, hcov⟩
          exact ⟨S, List.Sublist.cons _ hsub, hlen, hle, hcov⟩
        · have hz1 : ((applyUpdatesInner env dryRun config.skipManifestOnlyChanges
              rule.maxPackageUpdates updates cs ws 0).2.2 != 0) = true := by
            simpa using hz
          simp only [hz1, if_true]
          rcases ih (applyUpdatesInner env dryRun config.skipManifestOnlyChanges
                rule.maxPackageUpdates updates cs ws 0).1
              (applyUpdatesInner env dryRun config.skipManifestOnlyChanges
                rule.maxPackageUpdates updates cs ws 0).2.1
              (n + 1) (by omega) with ⟨S, hsub, hlen, hle, hcov⟩
          refine ⟨(glob, updates) :: S, List.Sublist.cons₂ _ hsub,
            by simp only [List.length_cons]; omega, hle, ?_⟩
          intro x hx
          rcases hcov x hx with h | h
          · rcases inner_keys_cover env dryRun config.skipManifestOnlyChanges
                rule.maxPackageUpdates updates cs ws 0 x h with h1 | h1
            · exact Or.inl h1
            · exact Or.inr ⟨(glob, updates), List.mem_cons_self _ _, h1⟩
          · rcases h with ⟨g, hg, hgx⟩
            exact Or.inr ⟨g, List.mem_cons_of_mem _ hg, hgx⟩

theorem loop_records (env : Env) (dryRun : Bool) (config : Config)
    (P : ChangesetRecord → Prop)
    (hmk : ∀ old d proj, P (mkChangesetRecord env old d proj))
    (groups : List (String × List (Nat × Descriptor))) :
    ∀ (cs : Changeset) (ws : Workspace) (n : Nat), (∀ p ∈ cs, P p.2) →
      ∀ p ∈ (applyUpdatesLoop env dryRun config groups cs ws n).1, P p.2 := by
  induction groups with
  | nil =>
    intro cs ws n hcs
    exact hcs
  | cons p rest ih =>
    intro cs ws n hcs
    obtain ⟨glob, updates⟩ := p
    simp only [applyUpdatesLoop]
    cases hr : jsGet config.rules glob with
    | none => exact ih cs ws n hcs
    | some rule =>
      by_cases hcp : capReached config.maxRulesApplied n = true
      · simp only [hcp, if_true]
        exact hcs
      · rw [Bool.not_eq_true] at hcp
        simp only [hcp, Bool.false_eq_true, if_false]
        exact ih _ _ _ (inner_records env dryRun config.skipManifestOnlyChanges
          rule.maxPackageUpdates P hmk updates cs ws 0 hcs)

theorem loop_project_dryRun (env : Env) (config : Config)
    (groups : List (String × List (Nat × Descriptor))) :
    ∀ (cs : Changeset) (ws : Workspace) (n : Nat),
      (applyUpdatesLoop env true config groups cs ws n).2.1.project = ws.project := by
  induction groups with
  | nil =>
    intro cs ws n
    rfl
  | cons p rest ih =>
    intro cs ws n
    obtain ⟨glob, updates⟩ := p
    simp only [applyUpdatesLoop]
    cases hr : jsGet config.rules glob with
    | none => exact ih cs ws n
    | some rule =>
      by_cases hcp : capReached config.maxRulesApplied n = true
      · simp only [hcp, if_true]
      · rw [Bool.not_eq_true] at hcp
        simp only [hcp, Bool.false_eq_true, if_false]
        rw [ih _ _ _]
        exact inner_project_dryRun env config.skipManifestOnlyChanges
          rule.maxPackageUpdates updates cs ws 0

theorem jsGet_map_snd {κ α β : Type} [DecidableEq κ] (f : α → β)
    (l : List (κ × α)) (k : κ) :
    jsGet (l.map (fun r => (r.1, f r.2))) k = (jsGet l k).map f := by
  have haux : ∀ (l : List (κ × α)) (acc : Option α),
      (l.map (fun r => (r.1, f r.2))).foldl
          (fun acc p => if p.1 = k then some p.2 else acc) (acc.map f)
        = (l.foldl (fun acc p => if p.1 = k then some p.2 else acc) acc).map f := by
    intro l
    induction l with
    | nil => intro acc; rfl
    | cons p rest ih =>
      intro acc
      obtain ⟨pk, pv⟩ := p
      simp only [List.map_cons, List.foldl_cons]
      by_cases h : pk = k
      · rw [if_pos h, if_pos h]
        exact ih (some pv)
      · rw [if_neg h, if_neg h]
        exact ih acc
  exact haux l none

theorem inner_normCap (env : Env) (dryRun skipM : Bool) (cap : Cap)
    (l : List (Nat × Descriptor)) :
    ∀ (cs : Changeset) (ws : Workspace) (n : Nat),
      applyUpdatesInner env dryRun skipM (normCap cap) l cs ws n
        = applyUpdatesInner env dryRun skipM cap l cs ws n := by
  induction l with
  | nil =>
    intro cs ws n
    rfl
  | cons p rest ih =>
    intro cs ws n
    obtain ⟨ph, pd⟩ := p
    simp only [applyUpdatesInner, capReached_normCap]
    split
    · rfl
    · cases jsGet ws.dependencies ph with
      | none => exact ih cs ws n
      | some old =>
        simp only
        split
        · exact ih cs ws n
        · exact ih _ _ _

theorem loop_norm (env : Env) (dryRun : Bool) (config : Config)
    (groups : List (String × List (Nat × Descriptor))) :
    ∀ (cs : Changeset) (ws : Workspace) (n : Nat),
      applyUpdatesLoop env dryRun (normConfig config) groups cs ws n
        = applyUpdatesLoop env dryRun config groups cs ws n := by
  induction groups with
  | nil =>
    intro cs ws n
    rfl
  | cons p rest ih =>
    intro cs ws n
    obtain ⟨glob, updates⟩ := p
    have hget : jsGet (normConfig config).rules glob
        = (jsGet config.rules glob).map normRule := by
      simpa [normConfig] using jsGet_map_snd normRule config.rules glob
    simp only [applyUpdatesLoop, hget]
    cases jsGet config.rules glob with
    | none =>
      simp only [Option.map_none']
      exact ih cs ws n
    | some rule =>
      simp only [Option.map_some']
      have hcap : capReached (normConfig config).maxRulesApplied n
          = capReached config.maxRulesApplied n := capReached_normCap _ _
      rw [hcap]
      split
      · rfl
      · have hskip : (normConfig config).skipManifestOnlyChanges
            = config.skipManifestOnlyChanges := rfl
        have hinner : applyUpdatesInner env dryRun (normConfig config).skipManifestOnlyChanges
              (normRule rule).maxPackageUpdates updates cs ws 0
            = applyUpdatesInner env dryRun config.skipManifestOnlyChanges
              rule.maxPackageUpdates updates cs ws 0 := by
          rw [hskip]
          exact inner_normCap env dryRun config.skipManifestOnlyChanges
            rule.maxPackageUpdates updates cs ws 0
        rw [hinner, ih]

theorem findGroupUpdates_sound (env : Env) (descriptors : List (Nat × Descriptor))
    (rule : RuleConfig) (packages : List Nat) :
    ∀ p ∈ findGroupUpdates env descriptors rule packages,
      ∃ pkg old, jsGet descriptors pkg = some old
        ∧ isSemverProtocol env.defaultProtocol (parseRange old.range) = true
        ∧ env.fetchDescriptorFrom old.ident
            (if rule.preserveSemVerRange then old.range else "latest") = some p.2
        ∧ old.range ≠ p.2.range
        ∧ p.1 = old.identHash := by
  have haux : ∀ (pkgs : List Nat) (acc : List (Nat × Descriptor)),
      (∀ p ∈ acc,
        ∃ pkg old, jsGet descriptors pkg = some old
          ∧ isSemverProtocol env.defaultProtocol (parseRange old.range) = true
          ∧ env.fetchDescriptorFrom old.ident
              (if rule.preserveSemVerRange then old.range else "latest") = some p.2
          ∧ old.range ≠ p.2.range
          ∧ p.1 = old.identHash) →
      ∀ p ∈ pkgs.foldl
          (fun updates pkg =>
            match jsGet descriptors pkg with
            | none => updates
            | some oldDescriptor =>
              if isSemverProtocol env.defaultProtocol (parseRange oldDescriptor.range) then
                match env.fetchDescriptorFrom oldDescriptor.ident
                    (if rule.preserveSemVerRange then oldDescriptor.range else "latest") with
                | some newDescriptor =>
                  if oldDescriptor.range ≠ newDescriptor.range then
                    mapSet updates oldDescriptor.identHash newDescriptor
                  else updates
                | none => updates
              else updates)
          acc,
        ∃ pkg old, jsGet descriptors pkg = some old
          ∧ isSemverProtocol env.defaultProtocol (parseRange old.range) = true
          ∧ env.fetchDescriptorFrom old.ident
              (if rule.preserveSemVerRange then old.range else "latest") = some p.2
          ∧ old.range ≠ p.2.range
          ∧ p.1 = old.identHash := by
    intro pkgs
    induction pkgs with
    | nil =>
      intro acc hacc
      exact hacc
    | cons pkg rest ih =>
      intro acc hacc
      simp only [List.foldl_cons]
      refine ih _ ?_
      intro q hq
      cases hj : jsGet descriptors pkg with
      | none =>
        simp only [hj] at hq
        exact hacc q hq
      | some old =>
        simp only [hj] at hq
        by_cases hp : isSemverProtocol env.defaultProtocol (parseRange old.range) = true
        · simp only [hp, if_true] at hq
          cases hf : env.fetchDescriptorFrom old.ident
              (if rule.preserveSemVerRange then old.range else "latest") with
          | none =>
            simp only [hf] at hq
            exact hacc q hq
          | some nd =>
            simp only [hf] at hq
            by_cases hne : old.range ≠ nd.range
            · rw [if_pos hne] at hq
              rcases mem_mapSet hq with h | h
              · exact hacc q h
              · rw [h]
                exact ⟨pkg, old, hj, hp, hf, hne, rfl⟩
            · rw [if_neg hne] at hq
              exact hacc q hq
        · rw [Bool.not_eq_true] at hp
          simp only [hp, Bool.false_eq_true, if_false] at hq
          exact hacc q hq
  intro p hp
  exact haux packages [] (by intro q hq; cases hq) p hp

theorem findUpdateCandidates_sound (env : Env) (ws : Workspace) (buckets : List Bucket) :
    ∀ g ∈ findUpdateCandidates env ws buckets,
      ∃ b ∈ buckets, b.glob = g.1 ∧
        ∀ p ∈ g.2,
          ∃ pkg old,
            jsGet (ws.manifest.dependencies ++ ws.manifest.devDependencies) pkg = some old
            ∧ isSemverProtocol env.defaultProtocol (parseRange old.range) = true
            ∧ env.fetchDescriptorFrom old.ident
                (if b.rule.preserveSemVerRange then old.range else "latest") = some p.2
            ∧ old.range ≠ p.2.range
            ∧ p.1 = old.identHash := by
  have haux : ∀ (bs : List Bucket) (acc : List (String × List (Nat × Descriptor))),
      (∀ b ∈ bs, b ∈ buckets) →
      (∀ g ∈ acc,
        ∃ b ∈ buckets, b.glob = g.1 ∧
          ∀ p ∈ g.2,
            ∃ pkg old,
              jsGet (ws.manifest.dependencies ++ ws.manifest.devDependencies) pkg = some old
              ∧ isSemverProtocol env.defaultProtocol (parseRange old.range) = true
              ∧ env.fetchDescriptorFrom old.ident
                  (if b.rule.preserveSemVerRange then old.range else "latest") = some p.2
              ∧ old.range ≠ p.2.range
              ∧ p.1 = old.identHash) →
      ∀ g ∈ bs.foldl
          (fun groups b =>
            if findGroupUpdates env (ws.manifest.dependencies ++ ws.manifest.devDependencies)
                b.rule b.packages ≠ [] then
              mapSet groups b.glob
                (findGroupUpdates env (ws.manifest.dependencies ++ ws.manifest.devDependencies)
                  b.rule b.packages)
            else groups)
          acc,
        ∃ b ∈ buckets, b.glob = g.1 ∧
          ∀ p ∈ g.2,
            ∃ pkg old,
              jsGet (ws.manifest.dependencies ++ ws.manifest.devDependencies) pkg = some old
              ∧ isSemverProtocol env.defaultProtocol (parseRange old.range) = true
              ∧ env.fetchDescriptorFrom old.ident
                  (if b.rule.preserveSemVerRange then old.range else "latest") = some p.2
              ∧ old.range ≠ p.2.range
              ∧ p.1 = old.identHash := by
    intro bs
    induction bs with
    | nil =>
      intro acc _ hacc
      exact hacc
    | cons b rest ih =>
      intro acc hbs hacc
      simp only [List.foldl_cons]
      refine ih _ (fun q hq => hbs q (List.mem_cons_of_mem _ hq)) ?_
      intro g hg
      by_cases hne : findGroupUpdates env
          (ws.manifest.dependencies ++ ws.manifest.devDependencies) b.rule b.packages ≠ []
      · rw [if_pos hne] at hg
        rcases mem_mapSet hg with h | h
        · exact hacc g h
        · rw [h]
          refine ⟨b, hbs b (List.mem_cons_self _ _), rfl, ?_⟩
          intro q hq
          exact findGroupUpdates_sound env _ b.rule b.packages q hq
      · rw [if_neg hne] at hg
        exact hacc g hg
  intro g hg
  exact haux buckets [] (fun b hb => hb) (by intro q hq; cases hq) g hg

theorem mem_setAdd {l : List Nat} {x y : Nat} : x ∈ setAdd l y ↔ x ∈ l ∨ x = y := by
  unfold setAdd
  split
  · next h =>
    constructor
    · exact Or.inl
    · rintro (hx | rfl)
      · exact hx
      · exact h
  · simp

theorem placeDep_globs (m : String → String → Bool) (i : String) (hsh : Nat)
    (bs : List Bucket) :
    (placeDep m i hsh bs).map Bucket.glob = bs.map Bucket.glob := by
  induction bs with
  | nil => rfl
  | cons b rest ih =>
    simp only [placeDep]
    split
    · simp
    · simp [ih]

theorem bucketsPackages_placeDep (m : String → String → Bool) (i : String) (hsh : Nat) :
    ∀ (bs : List Bucket) (j : Nat),
      bucketsPackages (placeDep m i hsh bs) j
        = if firstMatchIdx m i (bs.map Bucket.glob) = some j
          then setAdd (bucketsPackages bs j) hsh
          else bucketsPackages bs j := by
  intro bs
  induction bs with
  | nil =>
    intro j
    simp [placeDep, bucketsPackages, firstMatchIdx]
  | cons b rest ih =>
    intro j
    by_cases hm : m i b.glob = true
    · simp only [placeDep, hm, if_true, List.map_cons, firstMatchIdx]
      cases j with
      | zero => simp [bucketsPackages]
      | succ k => simp [bucketsPackages]
    · rw [Bool.not_eq_true] at hm
      simp only [placeDep, hm, Bool.false_eq_true, if_false, List.map_cons, firstMatchIdx]
      cases j with
      | zero =>
        cases hf : firstMatchIdx m i (rest.map Bucket.glob) with
        | none => simp [bucketsPackages, hf]
        | some k => simp [bucketsPackages, hf]
      | succ k =>
        have hcons : bucketsPackages (b :: placeDep m i hsh rest) (k + 1)
            = bucketsPackages (placeDep m i hsh rest) k := by
          simp [bucketsPackages, List.getElem?_cons_succ]
        have hcons2 : bucketsPackages (b :: rest) (k + 1) = bucketsPackages rest k := by
          simp [bucketsPackages, List.getElem?_cons_succ]
        rw [hcons, ih k, hcons2]
        cases hf : firstMatchIdx m i (rest.map Bucket.glob) with
        | none => simp [hf]
        | some k2 =>
          by_cases hk : k2 = k
          · simp [hf, hk]
          · simp [hf, hk, Nat.succ_inj]

theorem bucketsPackages_fold (m : String → String → Bool)
    (deps : List (Nat × Descriptor)) :
    ∀ (bs : List Bucket) (j : Nat),
      bucketsPackages (deps.foldl (fun bs p => placeDep m p.2.ident p.1 bs) bs) j
        = deps.foldl
            (fun acc p =>
              if firstMatchIdx m p.2.ident (bs.map Bucket.glob) = some j
              then setAdd acc p.1 else acc)
            (bucketsPackages bs j) := by
  induction deps with
  | nil =>
    intro bs j
    rfl
  | cons p rest ih =>
    intro bs j
    simp only [List.foldl_cons]
    rw [ih (placeDep m p.2.ident p.1 bs) j]
    simp only [placeDep_globs]
    rw [bucketsPackages_placeDep]

theorem specFold_mem (m : String → String → Bool) (globs : List String) (j : Nat)
    (deps : List (Nat × Descriptor)) :
    ∀ (init : List Nat) (x : Nat),
      x ∈ deps.foldl
          (fun acc p =>
            if firstMatchIdx m p.2.ident globs = some j then setAdd acc p.1 else acc)
          init
        ↔ x ∈ init
          ∨ ∃ p ∈ deps, p.1 = x ∧ firstMatchIdx m p.2.ident globs = some j := by
  induction deps with
  | nil =>
    intro init x
    simp
  | cons p rest ih =>
    intro init x
    simp only [List.foldl_cons]
    rw [ih]
    by_cases hp : firstMatchIdx m p.2.ident globs = some j
    · rw [if_pos hp, mem_setAdd]
      constructor
      · rintro ((hx | rfl) | ⟨q, hq, hqx, hqi⟩)
        · exact Or.inl hx
        · exact Or.inr ⟨p, List.mem_cons_self _ _, rfl, hp⟩
        · exact Or.inr ⟨q, List.mem_cons_of_mem _ hq, hqx, hqi⟩
      · rintro (hx | ⟨q, hq, hqx, hqi⟩)
        · exact Or.inl (Or.inl hx)
        · rcases List.mem_cons.mp hq with h | hq2
          · exact Or.inl (Or.inr (h ▸ hqx).symm)
          · exact Or.inr ⟨q, hq2, hqx, hqi⟩
    · rw [if_neg hp]
      constructor
      · rintro (hx | ⟨q, hq, hqx, hqi⟩)
        · exact Or.inl hx
        · exact Or.inr ⟨q, List.mem_cons_of_mem _ hq, hqx, hqi⟩
      · rintro (hx | ⟨q, hq, hqx, hqi⟩)
        · exact Or.inl hx
        · rcases List.mem_cons.mp hq with h | hq2
          · exact absurd (h ▸ hqi) hp
          · exact Or.inr ⟨q, hq2, hqx, hqi⟩

theorem getRulesWithPackages_mem (matcher : String → String → Bool)
    (config : Config) (manifest : Manifest) (j : Nat) (x : Nat) :
    x ∈ bucketsPackages (getRulesWithPackages matcher config manifest) j
      ↔ ∃ p ∈ manifest.dependencies ++ manifest.devDependencies,
          p.1 = x
          ∧ firstMatchIdx matcher p.2.ident (config.rules.map Prod.fst) = some j := by
  unfold getRulesWithPackages
  rw [bucketsPackages_fold]
  have hglobs : ((config.rules.map
        (fun r => Bucket.mk r.1 r.2 [])).map Bucket.glob)
      = config.rules.map Prod.fst := by
    simp [List.map_map, Function.comp]
  have hinit : bucketsPackages
      (config.rules.map (fun r => Bucket.mk r.1 r.2 [])) j = [] := by
    unfold bucketsPackages
    rw [List.getElem?_map]
    cases config.rules[j]? <;> simp
  simp only [hglobs, hinit]
  rw [specFold_mem]
  simp

/-- C3: `getRulesWithPackages` assigns every declared dependency
(dependencies then devDependencies) to the bucket of the first rule, in
config order, whose glob matches its stringified identity — never to a later
rule; under the well-formedness of ident hashing (equal hashes have equal
stringified idents) each package identity lands in at most one bucket, and a
dependency matching no glob lands in no bucket (the membership iff forces
`firstMatchIdx = some j`). -/
theorem C3_first_match_wins (matcher : String → String → Bool)
    (config : Config) (manifest : Manifest) :
    (∀ (j : Nat) (x : Nat),
      x ∈ bucketsPackages (getRulesWithPackages matcher config manifest) j
        ↔ ∃ p ∈ manifest.dependencies ++ manifest.devDependencies,
            p.1 = x
            ∧ firstMatchIdx matcher p.2.ident (config.rules.map Prod.fst) = some j)
    ∧ ((∀ p ∈ manifest.dependencies ++ manifest.devDependencies,
          ∀ q ∈ manifest.dependencies ++ manifest.devDependencies,
          p.1 = q.1 → p.2.ident = q.2.ident) →
        ∀ (i j x : Nat),
          x ∈ bucketsPackages (getRulesWithPackages matcher config manifest) i →
          x ∈ bucketsPackages (getRulesWithPackages matcher config manifest) j →
          i = j) := by
  constructor
  · intro j x
    exact getRulesWithPackages_mem matcher config manifest j x
  · intro hwf i j x hi hj
    rcases (getRulesWithPackages_mem matcher config manifest i x).mp hi with
      ⟨p, hp, hpx, hpi⟩
    rcases (getRulesWithPackages_mem matcher config manifest j x).mp hj with
      ⟨q, hq, hqx, hqj⟩
    have hid : p.2.ident = q.2.ident := hwf p hp q hq (hpx.trans hqx.symm)
    rw [hid] at hpi
    exact Option.some.inj (hpi.symm.trans hqj)

/-- C4: for a candidate whose computed `fromVersion` equals its computed
`toVersion`, the `applyUpdates` inner loop with `skipManifestOnlyChanges`
skips the candidate entirely (the state, including both counters, is exactly
as if the candidate were absent), while without the flag the same candidate
is applied and its ident appears in the resulting changeset. -/
theorem C4_skipManifestOnlyChanges (env : Env) (dryRun : Bool) (cap : Cap)
    (identHash : Nat) (descriptor oldBoundDescriptor : Descriptor)
    (rest : List (Nat × Descriptor)) (cs : Changeset) (ws : Workspace) (n : Nat)
    (hget : jsGet ws.dependencies identHash = some oldBoundDescriptor)
    (hsame : getInstalledVersion oldBoundDescriptor.descriptorHash ws.project
      = some (extractVersionFromRange env (parseRange descriptor.range).selector)) :
    applyUpdatesInner env dryRun true cap ((identHash, descriptor) :: rest) cs ws n
      = applyUpdatesInner env dryRun true cap rest cs ws n
    ∧ (capReached cap n = false →
        descriptor.ident ∈ (applyUpdatesInner env dryRun false cap
          ((identHash, descriptor) :: rest) cs ws n).1.map Prod.fst) := by
  have hmoc : isManifestOnlyChange env oldBoundDescriptor descriptor ws.project = true := by
    unfold isManifestOnlyChange
    exact decide_eq_true hsame
  constructor
  · by_cases hc : capReached cap n = true
    · rw [inner_break env dryRun true cap _ cs ws n hc,
        inner_break env dryRun true cap rest cs ws n hc]
    · rw [Bool.not_eq_true] at hc
      simp only [applyUpdatesInner, hc, Bool.false_eq_true, if_false, hget, hmoc,
        Bool.and_self, if_true]
  · intro hc
    simp only [applyUpdatesInner, hc, Bool.false_eq_true, if_false, hget,
      Bool.and_false]
    exact inner_keys_mono env dryRun false cap rest _ _ _ descriptor.ident
      (self_mem_keys_mapSet cs descriptor.ident _)

/-- C6: every entry of the changeset built by `applyUpdates` has a
`toVersion` equal to `extractVersionFromRange` of its own `toRange` (the
minimum satisfiable version of the new range whenever semver `minVersion`
yields one). -/
theorem C6_toVersion_min_of_range (env : Env) (dryRun : Bool) (config : Config)
    (rulesWithUpdates : List (String × List (Nat × Descriptor))) (ws : Workspace)
    (k : String) (r : ChangesetRecord)
    (hmem : (k, r) ∈ (applyUpdates env dryRun config rulesWithUpdates ws).1) :
    r.toVersion = extractVersionFromRange env r.toRange
    ∧ ∀ v, env.minVersion r.toRange = some v → r.toVersion = v := by
  have hp : r.toVersion = extractVersionFromRange env r.toRange :=
    loop_records env dryRun config
      (fun rec => rec.toVersion = extractVersionFromRange env rec.toRange)
      (fun old d proj => rfl) rulesWithUpdates [] ws 0
      (by intro p hp; cases hp) (k, r) hmem
  refine ⟨hp, ?_⟩
  intro v hv
  rw [hp]
  unfold extractVersionFromRange
  rw [hv]

/-- C7: every candidate recorded by `findUpdateCandidates` traces back to a
current manifest descriptor whose range passes the plain registry-protocol
test (`npm:` explicit, or no protocol with configured default `npm:`); a
descriptor of any other protocol therefore never yields a candidate. -/
theorem C7_protocol_eligibility (env : Env) (ws : Workspace) (buckets : List Bucket)
    (g : String × List (Nat × Descriptor))
    (hg : g ∈ findUpdateCandidates env ws buckets)
    (p : Nat × Descriptor) (hp : p ∈ g.2) :
    ∃ b ∈ buckets, b.glob = g.1 ∧
      ∃ pkg old,
        jsGet (ws.manifest.dependencies ++ ws.manifest.devDependencies) pkg = some old
        ∧ isSemverProtocol env.defaultProtocol (parseRange old.range) = true
        ∧ env.fetchDescriptorFrom old.ident
            (if b.rule.preserveSemVerRange then old.range else "latest") = some p.2
        ∧ p.1 = old.identHash := by
  rcases findUpdateCandidates_sound env ws buckets g hg with ⟨b, hb, hglob, hall⟩
  rcases hall p hp with ⟨pkg, old, h1, h2, h3, h4, h5⟩
  exact ⟨b, hb, hglob, pkg, old, h1, h2, h3, h5⟩

/-- C5 (amended): every candidate recorded by `findUpdateCandidates` comes
from a resolver result whose full range string differs from the current
descriptor's full range string (a resolver result equal to the current range
yields no candidate); the changeset entry's `toRange` selector, however, may
coincide with the pre-update declared range when the two full ranges differ
only in their protocol prefix. -/
theorem C5_candidate_range_differs (env : Env) (ws : Workspace) (buckets : List Bucket)
    (g : String × List (Nat × Descriptor))
    (hg : g ∈ findUpdateCandidates env ws buckets)
    (p : Nat × Descriptor) (hp : p ∈ g.2) :
    ∃ b ∈ buckets, b.glob = g.1 ∧
      ∃ pkg old,
        jsGet (ws.manifest.dependencies ++ ws.manifest.devDependencies) pkg = some old
        ∧ env.fetchDescriptorFrom old.ident
            (if b.rule.preserveSemVerRange then old.range else "latest") = some p.2
        ∧ p.1 = old.identHash
        ∧ old.range ≠ p.2.range := by
  rcases findUpdateCandidates_sound env ws buckets g hg with ⟨b, hb, hglob, hall⟩
  rcases hall p hp with ⟨pkg, old, h1, h2, h3, h4, h5⟩
  exact ⟨b, hb, hglob, pkg, old, h1, h3, h5, h4⟩

/-- C8: when at least one rule glob is supplied on the command line,
`parseConfigFile` discards any file-provided rules, pairs each CLI glob (in
order) with the default rule config (whose `preserveSemVerRange` is the CLI
flag, itself defaulting to true), and forces `maxRulesApplied` to the
unbounded sentinel. -/
theorem C8_cli_rule_globs (configFromFile : Option RawConfig)
    (preserveFlag : Bool) (ruleGlobs : List String) (h : ruleGlobs ≠ []) :
    (parseConfigFile configFromFile preserveFlag ruleGlobs).rules
        = ruleGlobs.map (fun g =>
            (g, { ruleConfigDefaults with preserveSemVerRange := preserveFlag }))
      ∧ (parseConfigFile configFromFile preserveFlag ruleGlobs).maxRulesApplied
        = Cap.unbounded := by
  unfold parseConfigFile
  simp [h, ruleConfigDefaults]

/-- C10: because both cap tests use JS truthiness, a configured cap of `0`
(global `maxRulesApplied` or any rule's `maxPackageUpdates`) behaves exactly
as the unbounded sentinel `false`: normalising every zero cap to unbounded
leaves the entire result of `applyUpdates` (changeset and mutated workspace)
unchanged, for every candidate map. -/
theorem C10_zero_cap_unbounded (env : Env) (dryRun : Bool) (config : Config)
    (rulesWithUpdates : List (String × List (Nat × Descriptor))) (ws : Workspace) :
    applyUpdates env dryRun (normConfig config) rulesWithUpdates ws
      = applyUpdates env dryRun config rulesWithUpdates ws := by
  unfold applyUpdates
  rw [loop_norm]

/-- C1 (amended to nonzero bounds): with `maxRulesApplied = N`, `N ≥ 1`, the
changeset of `applyUpdates` draws its entries from a sublist of at most `N`
of the candidate groups, however many groups had candidates; and a leading
group whose inner iteration applies zero updates contributes nothing and
does not count toward `N` — the run is identical to one without that
group. -/
theorem C1_maxRulesApplied_bound (env : Env) (dryRun : Bool) (config : Config)
    (ws : Workspace) (N : Nat)
    (hN : config.maxRulesApplied = Cap.num N) (hN1 : 1 ≤ N) :
    (∀ groups : List (String × List (Nat × Descriptor)),
      ∃ S, List.Sublist S groups ∧ S.length ≤ N ∧
        ∀ x ∈ (applyUpdates env dryRun config groups ws).1.map Prod.fst,
          ∃ g ∈ S, x ∈ g.2.map (fun p => p.2.ident))
    ∧ (∀ (glob : String) (updates : List (Nat × Descriptor))
        (rest : List (String × List (Nat × Descriptor))),
        (∀ rule, jsGet config.rules glob = some rule →
          (applyUpdatesInner env dryRun config.skipManifestOnlyChanges
            rule.maxPackageUpdates updates [] ws 0).2.2 = 0) →
        applyUpdates env dryRun config ((glob, updates) :: rest) ws
          = applyUpdates env dryRun config rest ws) := by
  constructor
  · intro groups
    rcases loop_cover env dryRun config N hN (by omega) groups [] ws 0 (by omega) with
      ⟨S, hsub, hlen, hle, hcov⟩
    refine ⟨S, hsub, by omega, ?_⟩
    intro x hx
    rcases hcov x hx with h | h
    · simp at h
    · exact h
  · intro glob updates rest hz
    unfold applyUpdates
    simp only [applyUpdatesLoop]
    cases hr : jsGet config.rules glob with
    | none => rfl
    | some rule =>
      rw [capReached_zero]
      have h0 := hz rule hr
      have heq := inner_count_eq env dryRun config.skipManifestOnlyChanges
        rule.maxPackageUpdates updates [] ws 0 h0
      simp only [heq, bne_self_eq_false, Bool.false_eq_true, if_false]

/-- C2 (amended to nonzero bounds): the inner loop of `applyUpdates` run
with a rule cap `maxPackageUpdates = M`, `M ≥ 1`, applies at most `M`
updates and grows the changeset by at most `M` entries, whatever the number
of candidates; with the unbounded sentinel it behaves exactly as with any
finite cap larger than the candidate list, i.e. the cap is removed. -/
theorem C2_maxPackageUpdates_bound (env : Env) (dryRun skipM : Bool)
    (updates : List (Nat × Descriptor)) (cs : Changeset) (ws : Workspace) :
    (∀ M : Nat, 1 ≤ M →
      (applyUpdatesInner env dryRun skipM (Cap.num M) updates cs ws 0).2.2 ≤ M
      ∧ (applyUpdatesInner env dryRun skipM (Cap.num M) updates cs ws 0).1.length
          ≤ cs.length + M)
    ∧ (∀ (n K : Nat), n + updates.length < K →
        applyUpdatesInner env dryRun skipM Cap.unbounded updates cs ws n
          = applyUpdatesInner env dryRun skipM (Cap.num K) updates cs ws n) := by
  constructor
  · intro M hM
    have hcount := inner_cap_le env dryRun skipM M (by omega) updates cs ws 0 (by omega)
    have hlen := inner_length env dryRun skipM (Cap.num M) updates cs ws 0
    exact ⟨hcount, by omega⟩
  · intro n K hK
    exact inner_unbounded_eq env dryRun skipM updates cs ws n K hK

/-- C9 (amended): with the dry-run flag set, the pipeline triggers no
reinstall and leaves the cached resolutions untouched, and writes nothing
when no changeset destination was given (absent, or the falsy empty
string); a named changeset destination, however, is still written even
under dry-run. -/
theorem C9_dry_run_effects (env : Env) (opts : CmdOptions) (config : Config)
    (ws : Workspace) (hdry : opts.dryRun = true) :
    (runPipeline env opts config ws).installCalled = false
    ∧ (runPipeline env opts config ws).workspace.project = ws.project
    ∧ (opts.changesetFilename = none ∨ opts.changesetFilename = some "" →
        (runPipeline env opts config ws).writes = [])
    ∧ (∀ f, opts.changesetFilename = some f → f ≠ "" → f ≠ "-" →
        (runPipeline env opts config ws).writes
          = [WriteEffect.fileWrite f
              (serializeChangeset (runPipeline env opts config ws).changeset)]) := by
  refine ⟨?_, ?_, ?_, ?_⟩
  · simp [runPipeline, hdry]
  · show (applyUpdates env opts.dryRun config _ ws).2.project = ws.project
    unfold applyUpdates
    rw [hdry]
    exact loop_project_dryRun env config _ [] ws 0
  · rintro (hnone | hempty)
    · simp [runPipeline, writeChangeset, hnone]
    · simp [runPipeline, writeChangeset, hempty]
  · intro f hf hne0 hne
    simp [runPipeline, writeChangeset, hf, hne0, hne]

/-- C1 counterexample: with the bounded cap value `maxRulesApplied = 0` the
truthiness gate disables the cap, so both candidate groups contribute
changeset entries — more than "at most N = 0 distinct rule groups". -/
theorem C1_counterexample :
    cxConfigC1.maxRulesApplied = Cap.num 0
    ∧ cxGroups.map Prod.fst = ["a*", "b*"]
    ∧ (applyUpdates cxEnv false cxConfigC1 cxGroups cxWs).1.map Prod.fst
      = ["a1", "b1"] :=
  ⟨rfl, rfl, by decide⟩

/-- C1 witness: a leading group applying zero updates leaves the run of
`applyUpdates` unchanged under `maxRulesApplied = 1`. -/
theorem C1_maxRulesApplied_bound_witness :
    cxConfigC5.maxRulesApplied = Cap.num 1
    ∧ 1 ≤ 1
    ∧ applyUpdates cxEnvC5 false cxConfigC5 (("*", []) :: cxGroupsC5) cxWsC5
        = applyUpdates cxEnvC5 false cxConfigC5 cxGroupsC5 cxWsC5 :=
  ⟨rfl, le_refl 1,
   (C1_maxRulesApplied_bound cxEnvC5 false cxConfigC5 cxWsC5 1 rfl (le_refl 1)).2
     "*" [] cxGroupsC5 (fun _rule _hr => rfl)⟩

/-- C2 counterexample: with the bounded cap value `maxPackageUpdates = 0`
the truthiness gate disables the cap, so the group still contributes an
entry — more than "at most M = 0 entries". -/
theorem C2_counterexample :
    cxRuleC2.maxPackageUpdates = Cap.num 0
    ∧ (applyUpdates cxEnv false cxConfigC2 [("a*", [(1, cxDescA2)])] cxWs).1.map Prod.fst
      = ["a1"] :=
  ⟨rfl, by decide⟩

/-- C2 witness: the package-cap bound instantiated at `M = 1` over a
one-candidate group. -/
theorem C2_maxPackageUpdates_bound_witness :
    (1 : Nat) ≤ 1
    ∧ (applyUpdatesInner cxEnvC5 false false (Cap.num 1) [(5, cxPkgNew)] [] cxWsC5 0).2.2 ≤ 1
    ∧ (applyUpdatesInner cxEnvC5 false false (Cap.num 1)
        [(5, cxPkgNew)] [] cxWsC5 0).1.length ≤ ([] : Changeset).length + 1 :=
  ⟨le_refl 1,
   ((C2_maxPackageUpdates_bound cxEnvC5 false false [(5, cxPkgNew)] [] cxWsC5).1
      1 (le_refl 1)).1,
   ((C2_maxPackageUpdates_bound cxEnvC5 false false [(5, cxPkgNew)] [] cxWsC5).1
      1 (le_refl 1)).2⟩

/-- C3 witness: the first-match characterisation and the
at-most-one-bucket consequence instantiated on a concrete workspace. -/
theorem C3_first_match_wins_witness :
    ((5 : Nat) ∈ bucketsPackages
        (getRulesWithPackages cxEnvC5.matcher cxConfigC5 cxWsC5.manifest) 0
      ↔ ∃ p ∈ cxWsC5.manifest.dependencies ++ cxWsC5.manifest.devDependencies,
          p.1 = 5
          ∧ firstMatchIdx cxEnvC5.matcher p.2.ident (cxConfigC5.rules.map Prod.fst)
            = some 0)
    ∧ (∀ (i j x : Nat),
        x ∈ bucketsPackages
          (getRulesWithPackages cxEnvC5.matcher cxConfigC5 cxWsC5.manifest) i →
        x ∈ bucketsPackages
          (getRulesWithPackages cxEnvC5.matcher cxConfigC5 cxWsC5.manifest) j →
        i = j) :=
  ⟨(C3_first_match_wins cxEnvC5.matcher cxConfigC5 cxWsC5.manifest).1 0 5,
   (C3_first_match_wins cxEnvC5.matcher cxConfigC5 cxWsC5.manifest).2 (by decide)⟩

/-- C4 witness: a candidate with `fromVersion = toVersion` skipped under the
flag and applied without it, on a concrete workspace. -/
theorem C4_skipManifestOnlyChanges_witness :
    jsGet cxWsC5.dependencies 5 = some cxPkgOld
    ∧ getInstalledVersion cxPkgOld.descriptorHash cxWsC5.project
        = some (extractVersionFromRange cxEnvC5 (parseRange cxPkgNew.range).selector)
    ∧ applyUpdatesInner cxEnvC5 false true Cap.unbounded [(5, cxPkgNew)] [] cxWsC5 0
        = applyUpdatesInner cxEnvC5 false true Cap.unbounded [] [] cxWsC5 0
    ∧ (capReached Cap.unbounded 0 = false →
        cxPkgNew.ident ∈ (applyUpdatesInner cxEnvC5 false false Cap.unbounded
          [(5, cxPkgNew)] [] cxWsC5 0).1.map Prod.fst) := by
  have h := C4_skipManifestOnlyChanges cxEnvC5 false Cap.unbounded 5 cxPkgNew cxPkgOld
    [] [] cxWsC5 0 (by decide) (by decide)
  exact ⟨by decide, by decide, h.1, fun hc => h.2 hc⟩

/-- C5 counterexample: the declared range is `^1.0.0`; the resolver answers
`npm:^1.0.0`, whose full string differs, so a candidate is recorded — yet
the resulting changeset entry's `toRange` equals the pre-update declared
range `^1.0.0`. -/
theorem C5_counterexample :
    cxPkgOld.range = "^1.0.0"
    ∧ (runPipeline cxEnvC5 { changesetFilename := none, dryRun := false }
          cxConfigC5 cxWsC5).changeset.map (fun p => (p.1, p.2.toRange))
      = [("pkg", "^1.0.0")] :=
  ⟨rfl, by decide⟩

/-- C5 witness: the candidate-soundness statement instantiated on the
concrete protocol-prefix fixture. -/
theorem C5_candidate_range_differs_witness :
    (("*", [((5 : Nat), cxPkgNew)]) ∈ findUpdateCandidates cxEnvC5 cxWsC5 cxBuckets)
    ∧ ∃ b ∈ cxBuckets, b.glob = "*" ∧
        ∃ pkg old,
          jsGet (cxWsC5.manifest.dependencies ++ cxWsC5.manifest.devDependencies) pkg
            = some old
          ∧ cxEnvC5.fetchDescriptorFrom old.ident
              (if b.rule.preserveSemVerRange then old.range else "latest")
            = some cxPkgNew
          ∧ (5 : Nat) = old.identHash
          ∧ old.range ≠ cxPkgNew.range :=
  ⟨by decide,
   C5_candidate_range_differs cxEnvC5 cxWsC5 cxBuckets ("*", [(5, cxPkgNew)])
     (by decide) (5, cxPkgNew) (by decide)⟩

/-- C6 witness: the `toVersion`-derivation law instantiated at the concrete
changeset entry for `pkg`. -/
theorem C6_toVersion_min_of_range_witness :
    (("pkg", cxRecord) ∈ (applyUpdates cxEnvC5 false cxConfigC5 cxGroupsC5 cxWsC5).1)
    ∧ (cxRecord.toVersion = extractVersionFromRange cxEnvC5 cxRecord.toRange
       ∧ ∀ v, cxEnvC5.minVersion cxRecord.toRange = some v → cxRecord.toVersion = v) :=
  ⟨by decide,
   C6_toVersion_min_of_range cxEnvC5 false cxConfigC5 cxGroupsC5 cxWsC5
     "pkg" cxRecord (by decide)⟩

/-- C7 witness: the protocol-eligibility statement instantiated on the
concrete fixture. -/
theorem C7_protocol_eligibility_witness :
    (("*", [((5 : Nat), cxPkgNew)]) ∈ findUpdateCandidates cxEnvC5 cxWsC5 cxBuckets)
    ∧ ∃ b ∈ cxBuckets, b.glob = "*" ∧
        ∃ pkg old,
          jsGet (cxWsC5.manifest.dependencies ++ cxWsC5.manifest.devDependencies) pkg
            = some old
          ∧ isSemverProtocol cxEnvC5.defaultProtocol (parseRange old.range) = true
          ∧ cxEnvC5.fetchDescriptorFrom old.ident
              (if b.rule.preserveSemVerRange then old.range else "latest")
            = some cxPkgNew
          ∧ (5 : Nat) = old.identHash :=
  ⟨by decide,
   C7_protocol_eligibility cxEnvC5 cxWsC5 cxBuckets ("*", [(5, cxPkgNew)])
     (by decide) (5, cxPkgNew) (by decide)⟩

/-- C8 witness: the CLI-glob override instantiated at one glob with the
default flag. -/
theorem C8_cli_rule_globs_witness :
    (["a*"] : List String) ≠ []
    ∧ (parseConfigFile none true ["a*"]).rules
        = [("a*", { ruleConfigDefaults with preserveSemVerRange := true })]
    ∧ (parseConfigFile none true ["a*"]).maxRulesApplied = Cap.unbounded := by
  have h := C8_cli_rule_globs none true ["a*"] (by decide)
  exact ⟨by decide, h.1, h.2⟩

/-- C9 counterexample: with dry-run set and a named changeset destination,
the pipeline still performs a persisted file write of the changeset. -/
theorem C9_counterexample :
    cxOptsW.dryRun = true
    ∧ (runPipeline cxEnvC5 cxOptsW cxConfigC5 cxWsC5).writes
      = [WriteEffect.fileWrite "changeset.json"
          [("pkg",
            { fromVersionField := some "1.0.0", fromRangeField := "^1.0.0",
              toVersionField := "1.0.0", toRangeField := "^1.0.0",
              updateTypeField := none, releaseNotesField := none })]] :=
  ⟨rfl, by decide⟩

/-- C9 witness: the amended dry-run frame conditions instantiated on the
concrete fixture. -/
theorem C9_dry_run_effects_witness :
    cxOptsW.dryRun = true
    ∧ (runPipeline cxEnvC5 cxOptsW cxConfigC5 cxWsC5).installCalled = false
    ∧ (runPipeline cxEnvC5 cxOptsW cxConfigC5 cxWsC5).workspace.project = cxWsC5.project
    ∧ (cxOptsW.changesetFilename = none ∨ cxOptsW.changesetFilename = some "" →
        (runPipeline cxEnvC5 cxOptsW cxConfigC5 cxWsC5).writes = [])
    ∧ (∀ f, cxOptsW.changesetFilename = some f → f ≠ "" → f ≠ "-" →
        (runPipeline cxEnvC5 cxOptsW cxConfigC5 cxWsC5).writes
          = [WriteEffect.fileWrite f
              (serializeChangeset
                (runPipeline cxEnvC5 cxOptsW cxConfigC5 cxWsC5).changeset)]) := by
  have h := C9_dry_run_effects cxEnvC5 cxOptsW cxConfigC5 cxWsC5 rfl
  exact ⟨rfl, h.1, h.2.1, h.2.2.1, h.2.2.2⟩

end SemverUp
